import Mathlib

/-!
Verification of the document redaction engine
(`src/redaction/src/redaction_engine.py`, `src/redaction/src/file_handler.py`).

Python strings are modelled as `List Char` (Python compares strings by code
point, exactly as `Char` comparison does).  File contents are modelled by the
`Doc` type and a filesystem is a map from path to optional document.  The
external numeric library calls (`sklearn.KMeans` / `silhouette_score`) and the
PDF library (`fitz`) are modelled as explicit oracle parameters, so every
theorem about them quantifies over the oracle's behaviour.
-/

namespace Redaction

/-- Python strings, compared code point by code point. -/
abbrev Str := List Char

/-! ### Substring search (`str.find` / `in`)

`content.find(pat, start)` returns the smallest index `i ≥ start` at which
`pat` occurs (with `i + len(pat) ≤ len(content)`), and `-1` if there is none.
-/

/-- `pat` occurs in `content` at index `i`. -/
def isMatchAt (content pat : Str) (i : Nat) : Bool :=
  decide (i + pat.length ≤ content.length) && decide ((content.drop i).take pat.length = pat)

/-- Fuel-driven scan for the first match at index `≥ i`. -/
def findFromAux (content pat : Str) : Nat → Nat → Option Nat
  | 0, _ => none
  | fuel + 1, i =>
    if i + pat.length ≤ content.length then
      if (content.drop i).take pat.length = pat then some i
      else findFromAux content pat fuel (i + 1)
    else none

/-- `content.find(pat, start)` (`none` instead of `-1`). -/
def findFrom (content pat : Str) (start : Nat) : Option Nat :=
  findFromAux content pat (content.length + 1 - start) start

/-- Python's `pat in content` substring test. -/
def containsSub (content pat : Str) : Bool :=
  (findFrom content pat 0).isSome

/-- Python's `str.replace`: replace every non-overlapping occurrence of `pat`
left to right.  For an empty `pat` Python inserts `repl` at every boundary. -/
def pyReplaceAux (pat repl : Str) : Nat → Str → Str
  | 0, s => s
  | fuel + 1, s =>
    match findFrom s pat 0 with
    | none => s
    | some i => s.take i ++ repl ++ pyReplaceAux pat repl fuel (s.drop (i + pat.length))

/-- Python's `str.replace pat repl` (all occurrences). -/
def pyReplace (s pat repl : Str) : Str :=
  if pat.isEmpty then repl ++ (s.map (fun c => [c] ++ repl)).flatten
  else pyReplaceAux pat repl (s.length + 1) s

/-! ### `RedactionEngine._redact_text`: the pure text-rewriting core
(lines 446–470 of `redaction_engine.py`).

The code sorts the suggestion texts by `(-len(text), text.lower())` (Python's
sort is stable; `List.insertionSort` with the same total preorder computes the
same list), records `(pos, pos + len(text), "[REDACTED]")` for every `find`
hit, resuming the scan at `pos + 1`, then sorts the records by start offset in
reverse (again stably) and splices each one over the current character buffer.
-/

/-- Code-point lexicographic order on strings (Python `str` comparison). -/
def lexLe : Str → Str → Bool
  | [], _ => true
  | _ :: _, [] => false
  | a :: as, b :: bs => if a = b then lexLe as bs else decide (a < b)

/-- The sort key order `(-len(x['text']), x['text'].lower())` used at line 447. -/
def suggLe (a b : Str) : Prop :=
  (if a.length = b.length then lexLe (a.map Char.toLower) (b.map Char.toLower)
   else decide (b.length < a.length)) = true

instance : DecidableRel suggLe := fun _ _ => by unfold suggLe; infer_instance

/-- The literal replacement marker. -/
def REDACTEDSTR : Str := "[REDACTED]".toList

/-- One redaction record `(start, end, replacement)`. -/
abbrev SpanRec := Nat × Nat × Str

/-- All records for one suggestion text: every `find` hit from `start`,
resuming at `pos + 1` (line 451–459). -/
def occSpansAux (content pat : Str) : Nat → Nat → List SpanRec
  | 0, _ => []
  | fuel + 1, start =>
    match findFrom content pat start with
    | none => []
    | some pos => (pos, pos + pat.length, REDACTEDSTR) :: occSpansAux content pat fuel (pos + 1)

/-- All records for one suggestion text, scanning from offset 0. -/
def occSpans (content pat : Str) : List SpanRec :=
  occSpansAux content pat (content.length + 2) 0

/-- The full record list, accumulated over the sorted suggestion texts. -/
def recordedSpans (suggestions : List Str) (content : Str) : List SpanRec :=
  (List.insertionSort suggLe suggestions).foldl (fun acc t => acc ++ occSpans content t) []

/-- Descending-start order used by `redactions.sort(key=x[0], reverse=True)`. -/
def spanGe (a b : SpanRec) : Prop := b.1 ≤ a.1

instance : DecidableRel spanGe := fun _ _ => by unfold spanGe; infer_instance

instance : IsTotal SpanRec spanGe := ⟨fun a b => le_total b.1 a.1⟩

instance : IsTrans SpanRec spanGe := ⟨fun _ _ _ h1 h2 => le_trans h2 h1⟩

/-- Stable sort of the records by start offset, highest first. -/
def sortSpans (spans : List SpanRec) : List SpanRec :=
  List.insertionSort spanGe spans

/-- Python's slice assignment `chars[start:end] = repl` (for `end ≥ start` it
replaces the slice; a reversed slice inserts at `start`). -/
def splice (cs : Str) (start fin : Nat) (repl : Str) : Str :=
  cs.take start ++ repl ++ cs.drop (max start fin)

/-- The pure core of `RedactionEngine._redact_text`: record, sort, splice. -/
def redactTextContent (suggestions : List Str) (content : Str) : Str :=
  (sortSpans (recordedSpans suggestions content)).foldl
    (fun cs sp => splice cs sp.1 sp.2.1 sp.2.2) content

/-- The substring check at the heart of `RedactionEngine._verify_redaction`:
no suggestion text may survive in the extracted text. -/
def verifyTexts (texts : List Str) (extracted : Str) : Bool :=
  !(texts.any fun t => containsSub extracted t)

/-! ### Documents and the filesystem

A `Doc` is the content of one file: for a PDF only its extractable text
matters to the engine, a DOCX is its list of paragraphs (each a list of run
texts, `paragraph.text` being their concatenation), and a text file is its
character content. -/

deriving instance DecidableEq for Except

/-- One file's content. -/
inductive Doc where
  | pdf (text : Str)
  | docx (paras : List (List Str))
  | txt (content : Str)
deriving DecidableEq

/-- A filesystem: path to optional content. -/
abbrev FS := String → Option Doc

/-- Write (or overwrite) a file. -/
def setFile (fs : FS) (p : String) (d : Doc) : FS :=
  fun q => if q = p then some d else fs q

/-- `os.remove`. -/
def removeFile (fs : FS) (p : String) : FS :=
  fun q => if q = p then none else fs q

/-- `FileHandler.extract_text`: PDF pages are abstracted by the stored
extractable text; DOCX joins paragraph texts with a newline
(`_extract_docx_text`); plain text is passed through. -/
def extract_doc : Doc → Str
  | .pdf t => t
  | .docx ps => List.intercalate ['\n'] (ps.map List.flatten)
  | .txt c => c

/-- `RedactionEngine._verify_redaction`: re-open the produced PDF and check
that no suggestion text survives; any failure to open reads as `False`. -/
def verify_redaction (fs : FS) (path : String) (sugg : List Str) : Bool :=
  match fs path with
  | some (.pdf t) => verifyTexts sugg t
  | _ => false

/-! ### `RedactionEngine._redact_pdf`

The `fitz` pipeline (page search, redaction annotations, `apply_redactions`,
encrypted save) is an external-library effect; it is abstracted by a
`PdfApply` outcome: on success the output file holds the saved document (its
extractable text); on failure an exception is raised after possibly part of
the output file was written. -/

/-- Outcome of the abstract `fitz` redact-and-save pipeline. -/
inductive PdfApply where
  | success (savedText : Str)
  | failure (leftover : Option Str)

/-- `RedactionEngine._redact_pdf`: save, then verify; return the path only on
a `True` verification, `None` otherwise.  The `except` handler removes
whatever file sits at the output path before re-raising. -/
def redact_pdf (fs : FS) (outputPath : String) (sugg : List Str) (eff : PdfApply) :
    Except Unit (Option String) × FS :=
  match eff with
  | .success t =>
    let fs1 := setFile fs outputPath (.pdf t)
    if verify_redaction fs1 outputPath sugg then (.ok (some outputPath), fs1)
    else (.ok none, fs1)
  | .failure leftover =>
    let fs1 := match leftover with
      | none => fs
      | some t => setFile fs outputPath (.pdf t)
    let fs2 := if (fs1 outputPath).isSome then removeFile fs1 outputPath else fs1
    (.error (), fs2)

/-- `RedactionEngine._redact_docx`: rewrite one paragraph when the target
occurs in its text — clear every run and append a single run holding the
text with the target replaced by the filler (line 413–432). -/
def docxFillerUnit : Str := [Char.ofNat 226, Char.ofNat 8211, Char.ofNat 710]

/-- The filler written in place of a redacted DOCX string: the source's
3-character literal repeated once per character of the target. -/
def docxFiller (n : Nat) : Str := (List.replicate n docxFillerUnit).flatten

/-- One paragraph rewrite of `_redact_docx` for one suggestion text. -/
def redactParagraph (target : Str) (runs : List Str) : List Str :=
  let text := runs.flatten
  if containsSub text target then
    runs.map (fun _ => ([] : Str)) ++ [pyReplace text target (docxFiller target.length)]
  else runs

/-- `_redact_docx`'s paragraph loop: every suggestion in order, applied to
every paragraph. -/
def redact_docx_paras (sugg : List Str) (paras : List (List Str)) : List (List Str) :=
  sugg.foldl (fun ps t => ps.map (redactParagraph t)) paras

/-- `RedactionEngine._redact_docx`: read, rewrite paragraphs, save.  No
verification is run.  A read failure raises; the handler does no cleanup. -/
def redact_docx (fs : FS) (inputPath outputPath : String) (sugg : List Str) :
    Except Unit (Option String) × FS :=
  match fs inputPath with
  | some (.docx ps) =>
    (.ok (some outputPath), setFile fs outputPath (.docx (redact_docx_paras sugg ps)))
  | _ => (.error (), fs)

/-- `RedactionEngine._redact_text`: read, rewrite, write, return the output
path.  No verification is run.  `writeOutcome = some k` models the write
raising after `k` characters reached the disk; the handler does no cleanup. -/
def redact_text (fs : FS) (inputPath outputPath : String) (sugg : List Str)
    (writeOutcome : Option Nat) : Except Unit (Option String) × FS :=
  match fs inputPath with
  | some (.txt content) =>
    let red := redactTextContent sugg content
    match writeOutcome with
    | none => (.ok (some outputPath), setFile fs outputPath (.txt red))
    | some k => (.error (), setFile fs outputPath (.txt (red.take k)))
  | _ => (.error (), fs)

/-! ### `RedactionEngine.redact_document` -/

/-- Errors visible to `redact_document`'s caller. -/
inductive RErr where
  | valueError
  | runtimeError
deriving DecidableEq

/-- The `try`/`except` at lines 347–350: any exception becomes a
`RuntimeError`. -/
def mapRT {β : Type} : Except Unit β × FS → Except RErr β × FS
  | (.ok b, fs) => (.ok b, fs)
  | (.error _, fs) => (.error .runtimeError, fs)

/-- Split a string at its last dot: `(before, after)`. -/
def splitLastDot : Str → Option (Str × Str)
  | [] => none
  | c :: cs =>
    match splitLastDot cs with
    | some (pre, suf) => some (c :: pre, suf)
    | none => if c = '.' then some ([], cs) else none

/-- `os.path.splitext(path)[1].lower().replace('.', '')`: the lowercased
extension of the basename, empty when the basename has no extension (an
extension needs a non-dot character before its dot). -/
def fileExt (p : String) : String :=
  let base := (p.toList.reverse.takeWhile fun c => decide (c ≠ '/')).reverse
  match splitLastDot base with
  | some (pre, suf) =>
    if pre.any (fun c => decide (c ≠ '.')) then String.mk (suf.map Char.toLower) else ""
  | none => ""

/-- `RedactionEngine.redact_document` (lines 336–350): reject an empty
suggestion list, dispatch on the file extension, wrap any applier exception
in a `RuntimeError`. -/
def redact_document (fs : FS) (filePath : String) (sugg : List Str) (outputPath : String)
    (pdfEff : PdfApply) (txtWriteOutcome : Option Nat) : Except RErr (Option String) × FS :=
  if sugg.isEmpty then (.error .valueError, fs)
  else
    let fe := fileExt filePath
    if fe = "pdf" then mapRT (redact_pdf fs outputPath sugg pdfEff)
    else if fe = "docx" then mapRT (redact_docx fs filePath outputPath sugg)
    else if fe = "txt" then mapRT (redact_text fs filePath outputPath sugg txtWriteOutcome)
    else (.error .valueError, fs)

/-! ### `FileHandler.validate_file` (file_handler.py, lines 18–45) -/

/-- Errors raised by `validate_file`. -/
inductive VError where
  | notFound
  | tooLarge
  | unsupportedType
deriving DecidableEq

/-- The keys of `FileHandler.MIME_TYPE_MAPPING`. -/
def MIME_KEYS : List String :=
  ["application/pdf",
   "application/vnd.openxmlformats-officedocument.wordprocessingml.document",
   "text/plain",
   "application/rtf"]

/-- The extension lists of `MIME_TYPE_MAPPING`, flattened in mapping order. -/
def VALID_EXTS : List String :=
  [".pdf", ".docx", ".doc", ".txt", ".text", ".rtf"]

/-- `FileHandler.validate_file`.  `mimeGuess` is `mimetypes.guess_type`'s
verdict for the path and `ext` is `os.path.splitext(path)[1]`; both are
inputs because they come from the standard library's tables.  The size
test divides by `1024 * 1024` exactly as in the source (the Python float
quotient of an integer by `2^20` is exact at these magnitudes). -/
def validate_file (present : Bool) (sizeBytes : Nat) (mimeGuess : Option String)
    (ext : String) : Except VError Bool :=
  if !present then .error .notFound
  else if (sizeBytes : ℚ) / (1024 * 1024) > 100 then .error .tooLarge
  else
    let mimeOk := match mimeGuess with
      | none => false
      | some m => MIME_KEYS.contains m
    if !mimeOk then
      if !(VALID_EXTS.contains (String.mk (ext.toList.map Char.toLower))) then
        .error .unsupportedType
      else .ok true
    else .ok true

/-! ### `AdvancedPDFTextExtractor._detect_columns` (lines 110–161)

The k-means clustering and the silhouette score are `sklearn` calls working
on floating point data; they are abstracted as a `ClusterLib` oracle.  The
source always constructs `KMeans(n_clusters=n, random_state=42)`, i.e. the
seeded entry point; `kmeansUnseeded` models the library's behaviour when
`random_state` is omitted and the ambient RNG state would flow in — the
embedding shows that state is never consumed. -/

/-- A positioned word; only `x0`/`x1` matter to `_detect_columns`. -/
structure PWord where
  x0 : ℚ
  x1 : ℚ
deriving DecidableEq

/-- A detected column: `{x_range: (min x0, max x1), words: [...]}`. -/
structure Column where
  xRange : ℚ × ℚ
  words : List PWord
deriving DecidableEq

/-- The clustering oracle (abstract `sklearn`). -/
structure ClusterLib where
  kmeansSeeded : Nat → Nat → List ℚ → List Nat
  kmeansUnseeded : Nat → Nat → List ℚ → List Nat
  silhouette : List ℚ → List Nat → ℚ

/-- A well-behaved oracle: `fit_predict` returns one label per sample and
labels below the cluster count. -/
def ValidLib (lib : ClusterLib) : Prop :=
  ∀ s k data, 1 ≤ k →
    (lib.kmeansSeeded s k data).length = data.length ∧
    ∀ l ∈ lib.kmeansSeeded s k data, l < k

/-- `range(1, min(max_columns + 1, len(x_coords)))` with `max_columns = 3`
(the call sites never override the default). -/
def colCandidates (nWords : Nat) : List Nat := List.range' 1 (min (3 + 1) nWords - 1)

/-- Silhouette score of the seeded k-means labelling with `n` clusters. -/
def scoreOf (lib : ClusterLib) (xs : List ℚ) (n : Nat) : ℚ :=
  lib.silhouette xs (lib.kmeansSeeded 42 n xs)

/-- One iteration of the selection loop body (lines 131–138). -/
def bestStep (f : Nat → ℚ) (acc : Nat × ℚ) (n : Nat) : Nat × ℚ :=
  if 1 < n then (if f n > acc.2 then (n, f n) else acc) else acc

/-- The `best_n_clusters`/`best_score` selection loop at lines 127–138,
starting from `(1, -1)`; `n = 1` is skipped (no silhouette of one cluster),
larger `n` replaces the running best on a strictly better score. -/
def bestPair (lib : ClusterLib) (xs : List ℚ) : Nat × ℚ :=
  (colCandidates xs.length).foldl (bestStep (scoreOf lib xs)) (1, -1)

/-- The words carrying a given cluster label, in page order. -/
def clusterWords (ps : List (PWord × Nat)) (c : Nat) : List PWord :=
  ps.filterMap fun wl => if wl.2 = c then some wl.1 else none

/-- Build a column from a non-empty cluster (`min x0`, `max x1`). -/
def mkColumn : List PWord → Option Column
  | [] => none
  | w :: ws =>
    some ⟨(ws.foldl (fun m u => min m u.x0) w.x0, ws.foldl (fun m u => max m u.x1) w.x1),
          w :: ws⟩

/-- `AdvancedPDFTextExtractor._detect_columns`.  `rng` is the ambient RNG
state that the unseeded library entry point would consume; the source pins
`random_state=42`, so it flows nowhere. -/
def detect_columns (lib : ClusterLib) (rng : Nat) (words : List PWord) : List Column :=
  if words.isEmpty then []
  else
    let xs := words.map PWord.x0
    let bestN := (bestPair lib xs).1
    let labels := lib.kmeansSeeded 42 bestN xs
    (List.range bestN).filterMap fun c => mkColumn (clusterWords (words.zip labels) c)

/-! ## Lemmas about substring search and the recorded spans -/

lemma isMatchAt_le {content pat : Str} {p : Nat} (h : isMatchAt content pat p = true) :
    p + pat.length ≤ content.length := by
  simp [isMatchAt] at h
  exact h.1

lemma findFromAux_some {content pat : Str} {fuel : Nat} :
    ∀ {i p : Nat}, findFromAux content pat fuel i = some p →
      i ≤ p ∧ isMatchAt content pat p = true ∧
        ∀ q, i ≤ q → q < p → isMatchAt content pat q = false := by
  induction fuel with
  | zero => intro i p h; simp [findFromAux] at h
  | succ n ih =>
    intro i p h
    unfold findFromAux at h
    by_cases hle : i + pat.length ≤ content.length
    · rw [if_pos hle] at h
      by_cases heq : (content.drop i).take pat.length = pat
      · rw [if_pos heq] at h
        simp only [Option.some.injEq] at h
        subst h
        refine ⟨le_refl _, by simp [isMatchAt, hle, heq], ?_⟩
        intro q hq1 hq2
        omega
      · rw [if_neg heq] at h
        obtain ⟨h1, h2, h3⟩ := ih h
        refine ⟨by omega, h2, ?_⟩
        intro q hq1 hq2
        rcases Nat.eq_or_lt_of_le hq1 with rfl | hlt
        · simp [isMatchAt, heq]
        · exact h3 q hlt hq2
    · rw [if_neg hle] at h
      cases h

lemma findFromAux_none {content pat : Str} {fuel : Nat} :
    ∀ {i : Nat}, content.length + 1 ≤ fuel + i → findFromAux content pat fuel i = none →
      ∀ q, i ≤ q → isMatchAt content pat q = false := by
  induction fuel with
  | zero =>
    intro i hf _ q hq
    simp [isMatchAt]
    intro hle
    omega
  | succ n ih =>
    intro i hf h q hq
    unfold findFromAux at h
    by_cases hle : i + pat.length ≤ content.length
    · rw [if_pos hle] at h
      by_cases heq : (content.drop i).take pat.length = pat
      · rw [if_pos heq] at h; cases h
      · rw [if_neg heq] at h
        rcases Nat.eq_or_lt_of_le hq with rfl | hlt
        · simp [isMatchAt, heq]
        · exact ih (by omega) h q hlt
    · simp [isMatchAt]
      intro hle2
      omega

lemma findFrom_some {content pat : Str} {start p : Nat} (h : findFrom content pat start = some p) :
    start ≤ p ∧ isMatchAt content pat p = true ∧
      ∀ q, start ≤ q → q < p → isMatchAt content pat q = false := by
  unfold findFrom at h
  exact findFromAux_some h

lemma findFrom_none {content pat : Str} {start : Nat} (h : findFrom content pat start = none) :
    ∀ q, start ≤ q → isMatchAt content pat q = false := by
  unfold findFrom at h
  exact findFromAux_none (by omega) h

lemma occSpansAux_mem {content pat : Str} {fuel : Nat} :
    ∀ {start : Nat}, content.length + 2 ≤ fuel + start →
      ∀ sp : SpanRec, sp ∈ occSpansAux content pat fuel start ↔
        (start ≤ sp.1 ∧ isMatchAt content pat sp.1 = true ∧
          sp.2.1 = sp.1 + pat.length ∧ sp.2.2 = REDACTEDSTR) := by
  induction fuel with
  | zero =>
    intro start hf sp
    simp [occSpansAux]
    intro h1 h2
    exfalso
    have := isMatchAt_le h2
    omega
  | succ n ih =>
    intro start hf sp
    obtain ⟨s, e, r⟩ := sp
    unfold occSpansAux
    cases hfind : findFrom content pat start with
    | none =>
      simp
      intro h1 h2
      exfalso
      have := findFrom_none hfind s h1
      simp_all
    | some pos =>
      obtain ⟨hsp, hm, hmin⟩ := findFrom_some hfind
      have hposlen : pos + pat.length ≤ content.length := isMatchAt_le hm
      rw [List.mem_cons, ih (by omega)]
      constructor
      · rintro (heq | ⟨h1, h2, h3, h4⟩)
        · obtain ⟨rfl, rfl, rfl⟩ := Prod.mk.injEq .. ▸ heq
          exact ⟨hsp, hm, rfl, rfl⟩
        · exact ⟨by omega, h2, h3, h4⟩
      · rintro ⟨h1, h2, h3, h4⟩
        simp only at h2 h3 h4
        rcases Nat.lt_or_ge s (pos + 1) with hlt | hge
        · have hse : s = pos := by
            rcases Nat.lt_or_ge s pos with hlt2 | hge2
            · have := hmin s h1 hlt2
              rw [this] at h2
              cases h2
            · omega
          subst hse
          subst h3
          subst h4
          exact Or.inl rfl
        · exact Or.inr ⟨hge, h2, h3, h4⟩

lemma occSpans_mem (content pat : Str) (sp : SpanRec) :
    sp ∈ occSpans content pat ↔
      (isMatchAt content pat sp.1 = true ∧
        sp.2.1 = sp.1 + pat.length ∧ sp.2.2 = REDACTEDSTR) := by
  unfold occSpans
  rw [occSpansAux_mem (by omega)]
  simp

lemma mem_foldl_append {α β : Type} (f : β → List α) (l : List β) :
    ∀ (acc : List α) (x : α),
      x ∈ l.foldl (fun a t => a ++ f t) acc ↔ x ∈ acc ∨ ∃ t ∈ l, x ∈ f t := by
  induction l with
  | nil => intro acc x; simp
  | cons b l ih =>
    intro acc x
    rw [List.foldl_cons, ih]
    simp [List.mem_append, or_assoc]

lemma recordedSpans_mem (suggestions : List Str) (content : Str) (sp : SpanRec) :
    sp ∈ recordedSpans suggestions content ↔ ∃ t ∈ suggestions, sp ∈ occSpans content t := by
  unfold recordedSpans
  rw [mem_foldl_append]
  simp only [List.not_mem_nil, false_or]
  constructor
  · rintro ⟨t, ht, hsp⟩
    exact ⟨t, (List.perm_insertionSort suggLe suggestions).mem_iff.mp ht, hsp⟩
  · rintro ⟨t, ht, hsp⟩
    exact ⟨t, (List.perm_insertionSort suggLe suggestions).mem_iff.mpr ht, hsp⟩

/-! ## Claim C2 -/

/-- C2, counterexample: for the single accepted text `"aa"` and the document
`"aaa"`, the recorded spans are `(0,2)` and `(1,3)` — two spans that overlap
(`1 < 2` and `0 < 3`), refuting "no two recorded spans overlap". -/
theorem redact_text_overlapping_spans_cex :
    (recordedSpans ["aa".toList] "aaa".toList).map (fun sp => (sp.1, sp.2.1)) = [(0, 2), (1, 3)] ∧
      1 < 2 ∧ 0 < 3 := by
  decide

/-- C2 (amended): the Text applier records, for each accepted text, every
occurrence span `(pos, pos + len, "[REDACTED]")` — the scan resumes one
character past each match start, so spans of one text or of different texts
may overlap — processing the accepted texts sorted by descending length then
case-insensitively lexicographically; and it rewrites the records sorted by
descending start offset (splicing `[REDACTED]` over each span of the current
buffer). -/
theorem redact_text_spans_characterization :
    ∀ (suggestions : List Str) (content : Str),
      (∀ sp : SpanRec, sp ∈ recordedSpans suggestions content ↔
        ∃ t ∈ suggestions, isMatchAt content t sp.1 = true ∧
          sp.2.1 = sp.1 + t.length ∧ sp.2.2 = REDACTEDSTR) ∧
      List.Sorted spanGe (sortSpans (recordedSpans suggestions content)) := by
  intro suggestions content
  refine ⟨?_, List.sorted_insertionSort spanGe _⟩
  intro sp
  rw [recordedSpans_mem]
  constructor
  · rintro ⟨t, ht, hsp⟩
    rw [occSpans_mem] at hsp
    exact ⟨t, ht, hsp⟩
  · rintro ⟨t, ht, h⟩
    exact ⟨t, ht, (occSpans_mem _ _ _).mpr h⟩

/-- Witness for C2's amended theorem at a concrete input: the overlapping
span `(1,3)` of `"aa"` in `"aaa"` is recorded. -/
theorem redact_text_spans_characterization_witness :
    ((1, 3, REDACTEDSTR) : SpanRec) ∈ recordedSpans ["aa".toList] "aaa".toList :=
  ((redact_text_spans_characterization ["aa".toList] "aaa".toList).1 (1, 3, REDACTEDSTR)).mpr
    ⟨"aa".toList, by decide, by decide, by decide, by decide⟩

/-! ## Claim C3: the SSN scenario -/

/-- The C3 scenario's filesystem: one text file holding the spec's input. -/
def fsC3 : FS := fun p =>
  if p = "doc.txt" then
    some (.txt "John Doe's SSN is 123-45-6789 and email is john@example.com".toList)
  else none

/-- C3: redacting `123-45-6789` from the SSN document produces exactly the
expected output text, and verification of that output against the request
succeeds. -/
theorem ssn_scenario :
    (redact_document fsC3 "doc.txt" ["123-45-6789".toList] "out.txt"
        (.failure none) none).1 = .ok (some "out.txt") ∧
    (redact_document fsC3 "doc.txt" ["123-45-6789".toList] "out.txt"
        (.failure none) none).2 "out.txt" =
      some (.txt "John Doe's SSN is [REDACTED] and email is john@example.com".toList) ∧
    verifyTexts ["123-45-6789".toList]
      "John Doe's SSN is [REDACTED] and email is john@example.com".toList = true := by
  decide

/-! ## Claim C1: verification before return -/

/-- Filesystem for the C1 counterexample: a text file whose whole content is
the accepted literal `"ED"`. -/
def fsC1 : FS := fun p => if p = "in.txt" then some (.txt "ED".toList) else none

/-- C1, counterexample: redacting the accepted text `"ED"` from the text file
`"ED"` returns an artifact whose re-extracted text `"[REDACTED]"` still
contains `"ED"` — an unverified (and unverifiable) artifact reaches the
caller, so verification cannot have run and succeeded on every path. -/
theorem unverified_artifact_cex :
    (redact_document fsC1 "in.txt" ["ED".toList] "out.txt" (.failure none) none).1 =
      .ok (some "out.txt") ∧
    ((redact_document fsC1 "in.txt" ["ED".toList] "out.txt" (.failure none) none).2
        "out.txt").map extract_doc = some "[REDACTED]".toList ∧
    containsSub "[REDACTED]".toList "ED".toList = true := by
  decide

/-- C1 (amended): only the PDF applier verifies before returning — whenever
`_redact_pdf` hands back a path, verification of the file at that path
succeeded (a failed verification yields `None`); the text applier returns its
artifact with no verification at all, and the returned artifact can still
contain an accepted literal. -/
theorem verification_only_for_pdf :
    (∀ (fs : FS) (out : String) (sugg : List Str) (eff : PdfApply) (p : String),
        (redact_pdf fs out sugg eff).1 = .ok (some p) →
        verify_redaction (redact_pdf fs out sugg eff).2 p sugg = true) ∧
    ((redact_text fsC1 "in.txt" "out.txt" ["ED".toList] none).1 = .ok (some "out.txt") ∧
      ((redact_text fsC1 "in.txt" "out.txt" ["ED".toList] none).2 "out.txt").map extract_doc =
        some "[REDACTED]".toList ∧
      containsSub "[REDACTED]".toList "ED".toList = true) := by
  constructor
  · intro fs out sugg eff p h
    cases eff with
    | success t =>
      simp only [redact_pdf] at h ⊢
      by_cases hv : verify_redaction (setFile fs out (.pdf t)) out sugg = true
      · rw [if_pos hv] at h ⊢
        simp only [Except.ok.injEq, Option.some.injEq] at h
        subst h
        exact hv
      · rw [if_neg hv] at h
        simp at h
    | failure leftover =>
      simp [redact_pdf] at h
  · decide

/-- Empty filesystem used for the C1 witness run. -/
def fsEmpty : FS := fun _ => none

/-- Witness for C1's amended theorem: a concrete successful PDF run whose
returned path carries a verified file. -/
theorem verification_only_for_pdf_witness :
    verify_redaction
      (redact_pdf fsEmpty "out.pdf" ["X".toList] (.success "clean".toList)).2
      "out.pdf" ["X".toList] = true :=
  verification_only_for_pdf.1 fsEmpty "out.pdf" ["X".toList]
    (.success "clean".toList) "out.pdf" (by decide)

/-! ## Claim C4: cleanup after a failed apply -/

/-- Filesystem for the C4 counterexample: one small text file. -/
def fsC4 : FS := fun p => if p = "in.txt" then some (.txt "abc".toList) else none

/-- C4, counterexample: when the text applier's write raises after three
characters reached the disk, the operation reports a `RuntimeError` — yet the
partially-written artifact `"[RE"` is still sitting at the output path, so
the filesystem is not as it was before the call. -/
theorem partial_output_survives_cex :
    (redact_document fsC4 "in.txt" ["abc".toList] "out.txt" (.failure none) (some 3)).1 =
      .error .runtimeError ∧
    (redact_document fsC4 "in.txt" ["abc".toList] "out.txt" (.failure none) (some 3)).2
      "out.txt" = some (.txt "[RE".toList) := by
  decide

/-- C4 (amended): only the PDF applier discards the output file when the
apply fails — after a PDF failure no file remains at the output path; the
text applier propagates the error (so no artifact is ever returned) but
performs no cleanup, and a partially-written output file can remain. -/
theorem cleanup_only_for_pdf :
    (∀ (fs : FS) (out : String) (sugg : List Str) (leftover : Option Str),
        (redact_pdf fs out sugg (.failure leftover)).1 = .error () ∧
        (redact_pdf fs out sugg (.failure leftover)).2 out = none) ∧
    (∀ (fs : FS) (inp out : String) (sugg : List Str) (k : Nat),
        (redact_text fs inp out sugg (some k)).1 = .error ()) := by
  constructor
  · intro fs out sugg leftover
    cases leftover with
    | none =>
      refine ⟨rfl, ?_⟩
      simp only [redact_pdf]
      by_cases h : (fs out).isSome
      · rw [if_pos h]
        simp [removeFile]
      · rw [if_neg h]
        exact Option.not_isSome_iff_eq_none.mp h
    | some t =>
      refine ⟨?_, ?_⟩
      · simp [redact_pdf, setFile]
      · simp [redact_pdf, setFile, removeFile]
  · intro fs inp out sugg k
    unfold redact_text
    cases h : fs inp with
    | none => rfl
    | some d => cases d <;> rfl

/-! ## Claim C5: the DOCX paragraph scenario -/

/-- C5: for any run decomposition of a paragraph whose text is
`"Contact: Jane Roe"`, redacting the accepted text `"Jane Roe"` yields a
paragraph none of whose runs contains `"Jane Roe"` (the old runs are cleared,
the one new run holds the filler), and the re-extracted document text has no
occurrence of `"Jane Roe"`. -/
theorem docx_scenario :
    ∀ runs : List Str, runs.flatten = "Contact: Jane Roe".toList →
      (∀ p ∈ redact_docx_paras ["Jane Roe".toList] [runs], ∀ rn ∈ p,
          containsSub rn "Jane Roe".toList = false) ∧
      containsSub (extract_doc (.docx (redact_docx_paras ["Jane Roe".toList] [runs])))
        "Jane Roe".toList = false := by
  intro runs h
  have hpara : redactParagraph "Jane Roe".toList runs =
      runs.map (fun _ => ([] : Str)) ++ ["Contact: ".toList ++ docxFiller 8] := by
    unfold redactParagraph
    rw [h, if_pos (by decide)]
    congr 1
  have hparas : redact_docx_paras ["Jane Roe".toList] [runs] =
      [runs.map (fun _ => ([] : Str)) ++ ["Contact: ".toList ++ docxFiller 8]] := by
    unfold redact_docx_paras
    rw [List.foldl_cons, List.foldl_nil, List.map_cons, List.map_nil, hpara]
  rw [hparas]
  constructor
  · intro p hp rn hrn
    simp only [List.mem_singleton] at hp
    subst hp
    rcases List.mem_append.mp hrn with hm | hm
    · obtain ⟨_, _, rfl⟩ := List.mem_map.mp hm
      decide
    · simp only [List.mem_singleton] at hm
      subst hm
      decide
  · have hflat : (runs.map (fun _ => ([] : Str)) ++
        ["Contact: ".toList ++ docxFiller 8]).flatten =
        "Contact: ".toList ++ docxFiller 8 := by
      rw [List.flatten_append]
      have : (runs.map (fun _ => ([] : Str))).flatten = [] := by
        rw [List.flatten_eq_nil_iff]
        intro l hl
        obtain ⟨_, _, rfl⟩ := List.mem_map.mp hl
        rfl
      rw [this]
      simp
    simp only [extract_doc, List.map_cons, List.map_nil, List.intercalate]
    simp [hflat]
    decide

/-- Witness for C5 at the run decomposition `["Contact: ", "Jane Roe"]`. -/
theorem docx_scenario_witness :
    containsSub (extract_doc (.docx (redact_docx_paras ["Jane Roe".toList]
      [["Contact: ".toList, "Jane Roe".toList]]))) "Jane Roe".toList = false :=
  (docx_scenario ["Contact: ".toList, "Jane Roe".toList] (by decide)).2

/-! ## Claim C10: empty suggestion lists -/

/-- C10: calling `redact_document` with an empty suggestion list fails with a
`ValueError` whatever the filesystem, paths or applier effects are — the
result does not depend on (and the call never touches) any file. -/
theorem empty_suggestions_rejected :
    ∀ (fs : FS) (filePath outputPath : String) (eff : PdfApply) (wo : Option Nat),
      redact_document fs filePath [] outputPath eff wo = (.error .valueError, fs) := by
  intro fs f o e w
  rfl

/-! ## Claim C9: `validate_file` -/

lemma size_check_iff (sizeBytes : Nat) :
    ((sizeBytes : ℚ) / (1024 * 1024) > 100) ↔ 104857600 < sizeBytes := by
  rw [gt_iff_lt, lt_div_iff₀ (by norm_num : (0 : ℚ) < 1024 * 1024)]
  norm_num

/-- C9: a missing file fails with the not-found error; an existing file
larger than `100 * 1024 * 1024` bytes fails with the too-large error (the
size gate runs before any type handling); an existing supported file — one
whose guessed MIME type is a mapping key or whose lowercased extension is a
mapped extension — at or below the ceiling validates successfully. -/
theorem validate_file_spec :
    ∀ (sizeBytes : Nat) (mimeGuess : Option String) (ext : String),
      (validate_file false sizeBytes mimeGuess ext = .error .notFound) ∧
      (104857600 < sizeBytes → validate_file true sizeBytes mimeGuess ext = .error .tooLarge) ∧
      (sizeBytes ≤ 104857600 →
        ((∃ m, mimeGuess = some m ∧ m ∈ MIME_KEYS) ∨
          String.mk (ext.toList.map Char.toLower) ∈ VALID_EXTS) →
        validate_file true sizeBytes mimeGuess ext = .ok true) := by
  intro sizeBytes mimeGuess ext
  refine ⟨rfl, ?_, ?_⟩
  · intro h
    unfold validate_file
    rw [if_neg (by simp), if_pos ((size_check_iff sizeBytes).mpr h)]
  · intro hsize hsupp
    unfold validate_file
    rw [if_neg (by simp), if_neg (by rw [size_check_iff]; omega)]
    rcases hsupp with ⟨m, rfl, hm⟩ | hext
    · simp [hm]
    · cases mimeGuess with
      | none =>
        simp
        exact hext
      | some m =>
        by_cases hm : m ∈ MIME_KEYS
        · simp [hm]
        · simp [hm]
          exact hext

/-- Witness for C9 at concrete inputs: a 104857601-byte file is rejected as
too large, a small PDF (by MIME type) validates, a missing file is
not-found. -/
theorem validate_file_spec_witness :
    validate_file true 104857601 none ".txt" = .error .tooLarge ∧
    validate_file true 1000 (some "application/pdf") "" = .ok true ∧
    validate_file false 0 none "" = .error .notFound :=
  ⟨(validate_file_spec 104857601 none ".txt").2.1 (by decide),
   (validate_file_spec 1000 (some "application/pdf") "").2.2 (by decide)
     (Or.inl ⟨"application/pdf", rfl, by decide⟩),
   (validate_file_spec 0 none "").1⟩

/-! ## Lemmas about the column-selection loop and clusters -/

lemma bestFold_spec (f : Nat → ℚ) :
    ∀ (l : List Nat) (a : Nat × ℚ),
      (l.foldl (bestStep f) a = a ∧ ∀ k ∈ l, 1 < k → f k ≤ a.2) ∨
      (1 < (l.foldl (bestStep f) a).1 ∧ (l.foldl (bestStep f) a).1 ∈ l ∧
        (l.foldl (bestStep f) a).2 = f (l.foldl (bestStep f) a).1 ∧
        a.2 < (l.foldl (bestStep f) a).2 ∧
        ∀ k ∈ l, 1 < k → f k ≤ (l.foldl (bestStep f) a).2) := by
  intro l
  induction l with
  | nil => intro a; left; exact ⟨rfl, by simp⟩
  | cons n l ih =>
    intro a
    rw [List.foldl_cons]
    by_cases h1 : 1 < n
    · by_cases h2 : f n > a.2
      · have hstep : bestStep f a n = (n, f n) := by simp [bestStep, h1, h2]
        rw [hstep]
        rcases ih (n, f n) with ⟨heq, hbd⟩ | ⟨hgt, hmem, hval, hlt, hbd⟩
        · right
          rw [heq]
          refine ⟨h1, List.mem_cons_self .., rfl, h2, ?_⟩
          intro k hk hk1
          rcases List.mem_cons.mp hk with rfl | hk'
          · exact le_refl _
          · exact hbd k hk' hk1
        · right
          refine ⟨hgt, List.mem_cons_of_mem _ hmem, hval, lt_trans h2 hlt, ?_⟩
          intro k hk hk1
          rcases List.mem_cons.mp hk with rfl | hk'
          · exact le_of_lt hlt
          · exact hbd k hk' hk1
      · have hstep : bestStep f a n = a := by simp [bestStep, h1, h2]
        rw [hstep]
        rcases ih a with ⟨heq, hbd⟩ | ⟨hgt, hmem, hval, hlt, hbd⟩
        · left
          refine ⟨heq, ?_⟩
          intro k hk hk1
          rcases List.mem_cons.mp hk with rfl | hk'
          · exact le_of_not_lt h2
          · exact hbd k hk' hk1
        · right
          refine ⟨hgt, List.mem_cons_of_mem _ hmem, hval, hlt, ?_⟩
          intro k hk hk1
          rcases List.mem_cons.mp hk with rfl | hk'
          · exact le_of_lt (lt_of_le_of_lt (le_of_not_lt h2) hlt)
          · exact hbd k hk' hk1
    · have hstep : bestStep f a n = a := by simp [bestStep, h1]
      rw [hstep]
      rcases ih a with ⟨heq, hbd⟩ | ⟨hgt, hmem, hval, hlt, hbd⟩
      · left
        refine ⟨heq, ?_⟩
        intro k hk hk1
        rcases List.mem_cons.mp hk with rfl | hk'
        · exact absurd hk1 h1
        · exact hbd k hk' hk1
      · right
        refine ⟨hgt, List.mem_cons_of_mem _ hmem, hval, hlt, ?_⟩
        intro k hk hk1
        rcases List.mem_cons.mp hk with rfl | hk'
        · exact absurd hk1 h1
        · exact hbd k hk' hk1

lemma one_le_bestPair (lib : ClusterLib) (xs : List ℚ) : 1 ≤ (bestPair lib xs).1 := by
  unfold bestPair
  rcases bestFold_spec (scoreOf lib xs) (colCandidates xs.length) (1, -1) with
    ⟨heq, _⟩ | ⟨hgt, _⟩
  · rw [heq]
  · omega

lemma clusterWords_cons_ne {ps : List (PWord × Nat)} {p : PWord × Nat} {c : Nat}
    (h : p.2 ≠ c) : clusterWords (p :: ps) c = clusterWords ps c := by
  simp [clusterWords, List.filterMap_cons, h]

lemma clusterWords_cons_eq {ps : List (PWord × Nat)} {p : PWord × Nat} :
    clusterWords (p :: ps) p.2 = p.1 :: clusterWords ps p.2 := by
  simp [clusterWords, List.filterMap_cons]

lemma flatten_map_clusterWords_perm :
    ∀ (ps : List (PWord × Nat)) (l : List Nat), l.Nodup → (∀ p ∈ ps, p.2 ∈ l) →
      ((l.map (clusterWords ps)).flatten).Perm (ps.map Prod.fst) := by
  intro ps
  induction ps with
  | nil =>
    intro l _ _
    have hnil : ∀ c, clusterWords ([] : List (PWord × Nat)) c = [] := fun _ => rfl
    simp [hnil]
  | cons p ps ih =>
    intro l hnd hmem
    obtain ⟨s, t, rfl⟩ := List.append_of_mem (hmem p (List.mem_cons_self ..))
    have hns : p.2 ∉ s := by
      rw [List.nodup_append] at hnd
      exact fun hs => hnd.2.2 hs (List.mem_cons_self ..)
    have hnt : p.2 ∉ t := by
      rw [List.nodup_append] at hnd
      exact (List.nodup_cons.mp hnd.2.1).1
    have hmap : (s ++ p.2 :: t).map (clusterWords (p :: ps)) =
        s.map (clusterWords ps) ++ (p.1 :: clusterWords ps p.2) :: t.map (clusterWords ps) := by
      rw [List.map_append, List.map_cons]
      congr 1
      · apply List.map_congr_left
        intro c hc
        exact clusterWords_cons_ne (fun he => hns (he ▸ hc))
      · congr 1
        · exact clusterWords_cons_eq
        · apply List.map_congr_left
          intro c hc
          exact clusterWords_cons_ne (fun he => hnt (he ▸ hc))
    rw [hmap, List.flatten_append, List.flatten_cons, List.cons_append, List.map_cons]
    have hmem' : ∀ q ∈ ps, q.2 ∈ s ++ p.2 :: t :=
      fun q hq => hmem q (List.mem_cons_of_mem _ hq)
    have hihs := ih (s ++ p.2 :: t) hnd hmem'
    have hflat2 : ((s ++ p.2 :: t).map (clusterWords ps)).flatten =
        (s.map (clusterWords ps)).flatten ++
          (clusterWords ps p.2 ++ (t.map (clusterWords ps)).flatten) := by
      rw [List.map_append, List.map_cons, List.flatten_append, List.flatten_cons]
    rw [hflat2] at hihs
    exact List.Perm.trans List.perm_middle (hihs.cons p.1)

lemma mkColumn_nil : mkColumn [] = none := rfl

lemma mkColumn_cons (w : PWord) (ws : List PWord) :
    mkColumn (w :: ws) =
      some ⟨(ws.foldl (fun m u => min m u.x0) w.x0, ws.foldl (fun m u => max m u.x1) w.x1),
            w :: ws⟩ := rfl

lemma flatten_filterMap_mkColumn (g : Nat → List PWord) :
    ∀ l : List Nat, ((l.filterMap fun c => mkColumn (g c)).map Column.words).flatten =
      (l.map g).flatten := by
  intro l
  induction l with
  | nil => rfl
  | cons c l ih =>
    rw [List.filterMap_cons]
    cases hg : g c with
    | nil => simp [hg, mkColumn_nil, ih]
    | cons w ws => simp [hg, mkColumn_cons, ih]

lemma detect_columns_eq (lib : ClusterLib) (rng : Nat) (words : List PWord)
    (hne : words ≠ []) :
    detect_columns lib rng words =
      (List.range ((bestPair lib (words.map PWord.x0)).1)).filterMap
        (fun c => mkColumn (clusterWords
          (words.zip (lib.kmeansSeeded 42 ((bestPair lib (words.map PWord.x0)).1)
            (words.map PWord.x0))) c)) := by
  unfold detect_columns
  rw [if_neg (by rw [List.isEmpty_iff]; exact hne)]

lemma clusterWords_all_zero :
    ∀ ps : List (PWord × Nat), (∀ q ∈ ps, q.2 = 0) → clusterWords ps 0 = ps.map Prod.fst := by
  intro ps
  induction ps with
  | nil => intro _; rfl
  | cons p ps ih =>
    intro h
    have hp : p.2 = 0 := h p (List.mem_cons_self ..)
    have hstep : clusterWords (p :: ps) 0 = p.1 :: clusterWords ps 0 := by
      have hc : clusterWords (p :: ps) p.2 = p.1 :: clusterWords ps p.2 := clusterWords_cons_eq
      rw [hp] at hc
      exact hc
    rw [hstep, List.map_cons, ih fun q hq => h q (List.mem_cons_of_mem _ hq)]

/-! ## Claims C6, C7, C8: column detection -/

/-- A degenerate but well-behaved clustering oracle: every sample gets
label 0. -/
def constLib : ClusterLib :=
  ⟨fun _ _ data => List.replicate data.length 0,
   fun _ _ data => List.replicate data.length 0,
   fun _ _ => 0⟩

/-- Oracle for the C6 counterexample: 2-means splits the data at 250 and is
the only labelling with two distinct labels, so silhouette ranks k = 2 best. -/
def lib6 : ClusterLib :=
  ⟨fun _ k data =>
     if k = 2 then data.map (fun x => if x < 250 then 0 else 1)
     else List.replicate data.length 0,
   fun _ _ data => List.replicate data.length 0,
   fun _ labels => if labels.dedup.length = 2 then 1 else 0⟩

/-- Two words at two clearly distinct x-positions. -/
def words6 : List PWord := [⟨0, 10⟩, ⟨500, 510⟩]

/-- Modelled from the claim's words: the column count `k ∈ [1, 3]` that
maximizes the silhouette score of the k-means clustering of the x0
coordinates. -/
def claimedBestK (lib : ClusterLib) (xs : List ℚ) : Nat :=
  ((List.range' 1 3).foldl
    (fun acc k => if scoreOf lib xs k > acc.2 then (k, scoreOf lib xs k) else acc)
    (1, scoreOf lib xs 1)).1

/-- C6, counterexample: for a page of two words at two distinguishable
x-positions, the silhouette-maximizing count over k ∈ [1, 3] is 2, but
`_detect_columns` only scores `k ∈ range(1, min(4, len(words)))` — an empty
candidate range here — and returns a single column. -/
theorem column_count_krange_cex :
    (detect_columns lib6 0 words6).length = 1 ∧
    claimedBestK lib6 (words6.map PWord.x0) = 2 ∧
    (words6.map PWord.x0).dedup.length = 2 := by
  decide

/-- C6 (amended): `_detect_columns` scores only
`k ∈ range(1, min(4, word count))` with `k = 1` skipped, keeping the first
`k` whose silhouette score strictly exceeds the running best (initially −1)
— so either no candidate scores above −1 and the degenerate single cluster
is kept, or the selected `k` is a maximizer among the scored candidates; in
particular a page with at most two words always yields exactly one column. -/
theorem detect_columns_selection :
    ∀ (lib : ClusterLib) (rng : Nat) (words : List PWord), ValidLib lib → words ≠ [] →
      ((bestPair lib (words.map PWord.x0) = (1, -1) ∧
          ∀ k ∈ colCandidates (words.map PWord.x0).length, 1 < k →
            scoreOf lib (words.map PWord.x0) k ≤ -1) ∨
        (1 < (bestPair lib (words.map PWord.x0)).1 ∧
          (bestPair lib (words.map PWord.x0)).1 ∈ colCandidates (words.map PWord.x0).length ∧
          (bestPair lib (words.map PWord.x0)).2 =
            scoreOf lib (words.map PWord.x0) (bestPair lib (words.map PWord.x0)).1 ∧
          (-1 : ℚ) < (bestPair lib (words.map PWord.x0)).2 ∧
          ∀ k ∈ colCandidates (words.map PWord.x0).length, 1 < k →
            scoreOf lib (words.map PWord.x0) k ≤ (bestPair lib (words.map PWord.x0)).2)) ∧
      (words.length ≤ 2 → (detect_columns lib rng words).length = 1) := by
  intro lib rng words hlib hne
  constructor
  · rcases bestFold_spec (scoreOf lib (words.map PWord.x0))
      (colCandidates (words.map PWord.x0).length) (1, -1) with ⟨heq, hbd⟩ | h
    · left
      exact ⟨heq, hbd⟩
    · right
      exact h
  · intro hlen2
    have hxslen : (words.map PWord.x0).length = words.length := List.length_map ..
    have hbest : bestPair lib (words.map PWord.x0) = (1, -1) := by
      unfold bestPair colCandidates
      rw [hxslen]
      have : words.length = 1 ∨ words.length = 2 := by
        have : words.length ≠ 0 := fun h0 => hne (List.length_eq_zero.mp h0)
        omega
      rcases this with h1 | h2
      · rw [h1]
        rfl
      · rw [h2]
        rfl
    rw [detect_columns_eq lib rng words hne, hbest]
    have hfst : ((1 : Nat), (-1 : ℚ)).1 = 1 := rfl
    rw [hfst]
    obtain ⟨hlablen, hlab⟩ := hlib 42 1 (words.map PWord.x0) (le_refl 1)
    have hall0 : ∀ q ∈ words.zip (lib.kmeansSeeded 42 1 (words.map PWord.x0)), q.2 = 0 := by
      intro q hq
      have := hlab q.2 (List.of_mem_zip hq).2
      omega
    have hcl : clusterWords (words.zip (lib.kmeansSeeded 42 1 (words.map PWord.x0))) 0 =
        words := by
      rw [clusterWords_all_zero _ hall0]
      exact List.map_fst_zip words _ (by rw [hlablen, List.length_map])
    have hr1 : List.range 1 = [0] := rfl
    rw [hr1, List.filterMap_cons, hcl]
    cases words with
    | nil => exact absurd rfl hne
    | cons w ws =>
      rw [mkColumn_cons]
      rfl

/-- Witness for C6's amended theorem: a single-word page under the constant
oracle yields exactly one column. -/
theorem detect_columns_selection_witness :
    (detect_columns constLib 0 [⟨0, 10⟩]).length = 1 :=
  (detect_columns_selection constLib 0 [⟨0, 10⟩]
    (by
      intro s k data hk
      refine ⟨List.length_replicate .., ?_⟩
      intro l hl
      have := List.eq_of_mem_replicate hl
      omega)
    (by decide)).2 (by decide)

/-- Oracle for the C7 counterexample: 2-means splits at 100 (a genuine
1-dimensional Voronoi clustering of the sample data), 3-means additionally
splits at 225; the silhouette ranks the 2-split best. -/
def lib7 : ClusterLib :=
  ⟨fun _ k data =>
     if k = 2 then data.map (fun x => if x < 100 then 0 else 1)
     else if k = 3 then data.map (fun x => if x < 100 then 0 else if x < 225 then 1 else 2)
     else List.replicate data.length 0,
   fun _ _ data => List.replicate data.length 0,
   fun _ labels => if labels.dedup.length = 2 then 1 else 0⟩

/-- A page with one wide word starting at the left margin and three narrow
words in a right-hand band. -/
def words7 : List PWord := [⟨0, 300⟩, ⟨200, 210⟩, ⟨220, 230⟩, ⟨240, 250⟩]

/-- C7, counterexample: the detected columns' `x_range`s are `(0, 300)` and
`(200, 250)` — the wide first word drags its column's upper bound past the
second column's lower bound, so the bands overlap (`¬(300 ≤ 200 ∨ 250 ≤ 0)`),
refuting the pairwise non-overlap invariant. -/
theorem column_xranges_overlap_cex :
    (detect_columns lib7 0 words7).map Column.xRange = [(0, 300), (200, 250)] ∧
    ¬((300 : ℚ) ≤ 200 ∨ (250 : ℚ) ≤ 0) := by
  decide

/-- C7 (amended): for any well-behaved clustering oracle the detected
columns partition the page's words — the concatenation of the columns' word
lists is a permutation of the input words, so every word lands in exactly
one column; the `x_range` bands, however, may overlap (they stretch from a
cluster's least `x0` to its greatest `x1`, and a wide word can reach into
another column's band). -/
theorem detect_columns_partition :
    ∀ (lib : ClusterLib) (rng : Nat) (words : List PWord), ValidLib lib →
      (((detect_columns lib rng words).map Column.words).flatten).Perm words := by
  intro lib rng words hlib
  by_cases hne : words = []
  · subst hne
    exact List.Perm.nil
  · rw [detect_columns_eq lib rng words hne]
    obtain ⟨hlablen, hlab⟩ :=
      hlib 42 ((bestPair lib (words.map PWord.x0)).1) (words.map PWord.x0)
        (one_le_bestPair lib (words.map PWord.x0))
    rw [flatten_filterMap_mkColumn]
    have hperm := flatten_map_clusterWords_perm
      (words.zip (lib.kmeansSeeded 42 ((bestPair lib (words.map PWord.x0)).1)
        (words.map PWord.x0)))
      (List.range ((bestPair lib (words.map PWord.x0)).1))
      (List.nodup_range _)
      (by
        intro p hp
        rw [List.mem_range]
        exact hlab p.2 (List.of_mem_zip hp).2)
    refine hperm.trans ?_
    rw [List.map_fst_zip words _ (by rw [hlablen, List.length_map])]

/-- Witness for C7's amended theorem: the two-word page under the constant
oracle — its single column's word list is a permutation of the input. -/
theorem detect_columns_partition_witness :
    ((detect_columns constLib 0 [⟨0, 10⟩, ⟨500, 510⟩]).map Column.words).flatten.Perm
      [⟨0, 10⟩, ⟨500, 510⟩] :=
  detect_columns_partition constLib 0 [⟨0, 10⟩, ⟨500, 510⟩]
    (by
      intro s k data hk
      refine ⟨List.length_replicate .., ?_⟩
      intro l hl
      have := List.eq_of_mem_replicate hl
      omega)

/-- C8: `_detect_columns` is deterministic across runs — the clustering is
always invoked with the fixed seed `random_state=42`, so the ambient RNG
state (which the unseeded library entry point would consume) cannot
influence the result: any two runs over the same words return the same
number of columns. -/
theorem detect_columns_rng_independent :
    ∀ (lib : ClusterLib) (words : List PWord) (rng1 rng2 : Nat),
      (detect_columns lib rng1 words).length = (detect_columns lib rng2 words).length := by
  intro lib words r1 r2
  rfl

end Redaction

